import Mathlib

/-!
Shallow embedding of the consumption-data reconstruction pipeline
(`merge_csv.py`, `validate_data.py`, `enhance_flat_data.py`).

Cells read from a CSV file are modelled as `String`, with `""` playing the
role of a missing cell (pandas `NaN`): `pd.read_csv` yields `NaN` exactly for
empty cells, and the pipeline's first action on the five text columns is
`fillna('')`, so `notna` coincides with `≠ ""` throughout.  Monetary values
are parsed into `ℚ`; `Option ℚ` models a numeric cell that may be `NaN`
after `pd.to_numeric(errors='coerce')`.
-/

namespace Economato

/-- Row_Type: the closed tag assigned by `process_csv_files` (merge_csv.py,
lines 62-79). -/
inductive RowKind where
  | reparto
  | classe
  | categoria
  | articolo
  | unknown
deriving DecidableEq, Repr

/-- One input record, after the `fillna('')` of merge_csv.py line 57-59:
the five text columns plus the `Valore` cell (copied from `Primo_Periodo`,
line 42).  `""` stands for a missing (`NaN`) cell. -/
structure Row where
  reparto : String
  classe : String
  categoria : String
  codice : String
  descrizione : String
  valore : String
deriving DecidableEq, Repr

/-- The row classifier of merge_csv.py lines 62-79: `Row_Type` starts as
`'Unknown'` and the four `df.loc[mask, 'Row_Type'] = ...` assignments are
applied in program order, each overwriting the previous value where its mask
holds. -/
def rowType (r : Row) : RowKind :=
  let t : RowKind := .unknown
  let t := if r.reparto ≠ "" ∧ r.classe = "" then .reparto else t
  let t := if r.classe ≠ "" ∧ r.categoria = "" then .classe else t
  let t := if r.categoria ≠ "" ∧ r.descrizione = "" ∧ r.codice = "" then .categoria else t
  let t := if r.descrizione ≠ "" ∧ r.codice ≠ "" then .articolo else t
  t

/-- Modelled from the spec (section 4.1): the classifier the specification
describes, with the five rules evaluated in order and the FIRST matching
rule winning.  Used only to compare against the source classifier. -/
def classifySpecFirstMatch (r : Row) : RowKind :=
  if r.reparto ≠ "" ∧ r.classe = "" then .reparto
  else if r.classe ≠ "" ∧ r.categoria = "" then .classe
  else if r.categoria ≠ "" ∧ r.descrizione = "" ∧ r.codice = "" then .categoria
  else if r.descrizione ≠ "" ∧ r.codice ≠ "" then .articolo
  else .unknown

/-- The four (mask, kind) rules of merge_csv.py lines 66-79, in program
order. -/
def maskRules (r : Row) : List (Bool × RowKind) :=
  [(decide (r.reparto ≠ "" ∧ r.classe = ""), .reparto),
   (decide (r.classe ≠ "" ∧ r.categoria = ""), .classe),
   (decide (r.categoria ≠ "" ∧ r.descrizione = "" ∧ r.codice = ""), .categoria),
   (decide (r.descrizione ≠ "" ∧ r.codice ≠ ""), .articolo)]

/-- Evaluating the rule list in order with the LAST matching rule winning
(each matching rule overwrites the accumulated kind). -/
def classifyLastMatch (r : Row) : RowKind :=
  (maskRules r).foldl (fun acc m => if m.1 then m.2 else acc) .unknown

/-! ### Numeric coercion: `pd.to_numeric(errors='coerce')` on a cell

`to_numeric` accepts the Python float grammar on strings: optional
surrounding whitespace, an optional sign, a digit string with at most one
period as decimal separator (at least one digit overall), and an optional
exponent part.  Anything else - in particular a comma decimal separator or
thousands separators - coerces to `NaN` (here: `none`). -/

/-- Python `str.strip()` on a character list. -/
def pyStrip (cs : List Char) : List Char :=
  ((cs.dropWhile Char.isWhitespace).reverse.dropWhile Char.isWhitespace).reverse

/-- Python `str.strip()` on a string. -/
def stripStr (s : String) : String :=
  String.mk (pyStrip s.toList)

/-- Numeric value of a digit string (most significant first). -/
def digitsVal (cs : List Char) : Nat :=
  cs.foldl (fun a c => 10 * a + (c.toNat - 48)) 0

/-- The syntactic pieces of a parsed float literal: sign, integer digits,
fraction digits, number of fraction digits, exponent. -/
structure NumParts where
  neg : Bool
  ip : Nat
  fp : Nat
  flen : Nat
  ex : Int
deriving DecidableEq, Repr

/-- Parse a cell under the float grammar accepted by
`pd.to_numeric(errors='coerce')` on strings: optional surrounding
whitespace, optional sign, digits with at most one `'.'` (at least one
digit overall), and an optional `'e'`/`'E'` exponent with optional sign
and a nonempty digit string.  Anything else - in particular comma decimal
separators or thousands separators - fails to parse. -/
def parseParts (s : String) : Option NumParts :=
  let cs := pyStrip s.toList
  let sp : Bool × List Char :=
    match cs with
    | '+' :: t => (false, t)
    | '-' :: t => (true, t)
    | _ => (false, cs)
  let mant := sp.2.takeWhile (fun c => c ≠ 'e' ∧ c ≠ 'E')
  let rest := sp.2.dropWhile (fun c => c ≠ 'e' ∧ c ≠ 'E')
  let ip := mant.takeWhile (fun c => c ≠ '.')
  let fp := (mant.dropWhile (fun c => c ≠ '.')).tail
  let ex : Option Int :=
    match rest with
    | [] => some 0
    | _ :: t =>
      let p : Bool × List Char :=
        match t with
        | '+' :: u => (false, u)
        | '-' :: u => (true, u)
        | _ => (false, t)
      if p.2 ≠ [] ∧ p.2.all Char.isDigit then
        some (if p.1 then -(digitsVal p.2 : Int) else (digitsVal p.2 : Int))
      else none
  match ex with
  | none => none
  | some e =>
    if (ip ≠ [] ∨ fp ≠ []) ∧ ip.all Char.isDigit ∧ fp.all Char.isDigit then
      some ⟨sp.1, digitsVal ip, digitsVal fp, fp.length, e⟩
    else none

/-- The rational value denoted by a parsed float literal. -/
def partsVal (p : NumParts) : ℚ :=
  (if p.neg then -1 else 1) * ((p.ip : ℚ) + (p.fp : ℚ) / (10 : ℚ) ^ p.flen) *
    (if 0 ≤ p.ex then (10 : ℚ) ^ p.ex.toNat else 1 / (10 : ℚ) ^ (-p.ex).toNat)

/-- The numeric coercion `pd.to_numeric(errors='coerce')` applied to one
cell (merge_csv.py line 178, validate_data.py lines 77 and 85,
enhance_flat_data.py lines 20-21): an unparseable cell becomes `none`
(`NaN`), never zero. -/
def parseNum (s : String) : Option ℚ :=
  (parseParts s).map partsVal

/-! ### Hierarchy propagation (`propagate_hierarchy`, merge_csv.py 116-155) -/

/-- The mutable current-ancestor state of `propagate_hierarchy`. -/
structure HState where
  reparto : String
  classe : String
  categoria : String
deriving DecidableEq, Repr

/-- One row enriched with the `*_Filled` columns written by
`propagate_hierarchy`. -/
structure Filled where
  row : Row
  Reparto_Filled : String
  Classe_Filled : String
  Categoria_Filled : String
deriving DecidableEq, Repr

/-- The state transition of one loop iteration (merge_csv.py lines 136-148):
a `Reparto` row sets the department and clears class and category, a
`Classe` row sets the class and clears the category, a `Categoria` row sets
the category, every other kind leaves the state unchanged. -/
def step (s : HState) (r : Row) : HState :=
  match rowType r with
  | .reparto => ⟨r.reparto, "", ""⟩
  | .classe => ⟨s.reparto, r.classe, ""⟩
  | .categoria => ⟨s.reparto, s.classe, r.categoria⟩
  | .articolo => s
  | .unknown => s

/-- The stamping of one row (merge_csv.py lines 150-153), performed after
the state transition for that row: the department falls back to
`Reparto_Dir` when the current department is empty. -/
def fillRow (fb : String) (s : HState) (r : Row) : Filled :=
  ⟨r, if s.reparto ≠ "" then s.reparto else fb, s.classe, s.categoria⟩

/-- The row loop of `propagate_hierarchy` as a strict left fold threading
the ancestor state. -/
def propagateAux (fb : String) (s : HState) : List Row → List Filled
  | [] => []
  | r :: rs => fillRow fb (step s r) r :: propagateAux fb (step s r) rs

/-- merge_csv.py `propagate_hierarchy`: state initially empty
(lines 124-127), rows processed strictly in input order. -/
def propagate_hierarchy (fb : String) (rows : List Row) : List Filled :=
  propagateAux fb ⟨"", "", ""⟩ rows

/-- Directory-derived department name: `os.path.basename(input_dir).split('_')[0]`
(merge_csv.py line 30), applied to the directory's base name: the prefix
of the name before its first underscore. -/
def reparto_dir_of_dirname (dirName : String) : String :=
  String.mk (dirName.toList.takeWhile (fun c => c ≠ '_'))

/-- The per-file fallback department `Reparto_Dir` (merge_csv.py lines 81-90):
the directory-derived name when every `Reparto` cell is blank after
stripping; otherwise the first value among rows classified `Reparto`
(`unique()[0]` of the filtered column) when that exists and is non-empty,
and the directory-derived name again otherwise. -/
def repartoDirOf (dirPart : String) (rows : List Row) : String :=
  if rows.all (fun r => stripStr r.reparto = "") then dirPart
  else
    match (rows.filter (fun r => rowType r = RowKind.reparto)).map (fun r => r.reparto) with
    | [] => dirPart
    | v :: _ => if v ≠ "" then v else dirPart

/-- Per-file processing of `process_csv_files` after classification
(merge_csv.py lines 92-96): propagate the hierarchy with the file fallback
department, then keep only rows whose `Valore` cell is present. -/
def processFile (dirPart : String) (rows : List Row) : List Filled :=
  (propagate_hierarchy (repartoDirOf dirPart rows) rows).filter (fun f => f.row.valore ≠ "")

/-- `articoli_df = result_df[result_df['Row_Type'] == 'Articolo']`
(merge_csv.py line 175). -/
def articoli (rows : List Filled) : List Filled :=
  rows.filter (fun f => rowType f.row = RowKind.articolo)

/-- The numeric value of a processed row:
`pd.to_numeric(df['Valore'], errors='coerce')`. -/
def valoreQ (f : Filled) : Option ℚ :=
  parseNum f.row.valore

/-- A pandas column sum: `NaN` entries are skipped. -/
def totalValore (rows : List Filled) : ℚ :=
  (rows.filterMap valoreQ).sum

/-! ### Grouped summaries (merge_csv.py `main`, lines 182-197)

`groupby(..., sort=True)` (the pandas default) enumerates the groups in
ascending lexicographic key order; each group's value is the `NaN`-skipping
sum of its `Valore` column.  Group keys are distinct, so the summary is the
unique ascending enumeration of (key, fiber-sum) pairs; it is computed here
by insertion-sorting the deduplicated key list. -/

/-- Insert into a sorted list (ascending with respect to `le`). -/
def insSorted (le : α → α → Bool) (a : α) : List α → List α
  | [] => [a]
  | b :: t => if le a b then a :: b :: t else b :: insSorted le a t

/-- Sort a list ascending with respect to `le` by insertion. -/
def sortKeys (le : α → α → Bool) (l : List α) : List α :=
  l.foldr (insSorted le) []

/-- Lexicographic comparison of character lists by code point, the order
pandas uses on string keys. -/
def charListLe : List Char → List Char → Bool
  | [], _ => true
  | _ :: _, [] => false
  | x :: xs, y :: ys =>
    if x.toNat < y.toNat then true
    else if y.toNat < x.toNat then false
    else charListLe xs ys

/-- Ascending order on single string keys. -/
def keyLe1 (a b : String) : Bool :=
  charListLe a.toList b.toList

/-- Ascending lexicographic order on pairs whose first component is a
string key. -/
def lexLe {β : Type} (le2 : β → β → Bool) (a b : String × β) : Bool :=
  if a.1 = b.1 then le2 a.2 b.2 else keyLe1 a.1 b.1

/-- Ascending lexicographic order on (department, class) keys. -/
def keyLe2 : String × String → String × String → Bool :=
  lexLe keyLe1

/-- Ascending lexicographic order on (department, class, category) keys. -/
def keyLe3 : String × String × String → String × String × String → Bool :=
  lexLe keyLe2

/-- `articoli_df.groupby('Reparto_Filled')['Valore'].sum()`
(merge_csv.py line 182). -/
def reparto_summary (rows : List Filled) : List (String × ℚ) :=
  let arts := articoli rows
  (sortKeys keyLe1 ((arts.map (fun f => f.Reparto_Filled)).dedup)).map
    (fun k => (k, totalValore (arts.filter (fun f => f.Reparto_Filled = k))))

/-- `articoli_df.groupby(['Reparto_Filled', 'Classe_Filled'])['Valore'].sum()`
(merge_csv.py line 188). -/
def classe_summary (rows : List Filled) : List ((String × String) × ℚ) :=
  let arts := articoli rows
  (sortKeys keyLe2 ((arts.map (fun f => (f.Reparto_Filled, f.Classe_Filled))).dedup)).map
    (fun k => (k, totalValore (arts.filter
      (fun f => (f.Reparto_Filled, f.Classe_Filled) = k))))

/-- `articoli_df.groupby(['Reparto_Filled', 'Classe_Filled', 'Categoria_Filled'])['Valore'].sum()`
(merge_csv.py line 194). -/
def categoria_summary (rows : List Filled) : List ((String × String × String) × ℚ) :=
  let arts := articoli rows
  (sortKeys keyLe3
      ((arts.map (fun f => (f.Reparto_Filled, f.Classe_Filled, f.Categoria_Filled))).dedup)).map
    (fun k => (k, totalValore (arts.filter
      (fun f => (f.Reparto_Filled, f.Classe_Filled, f.Categoria_Filled) = k))))

/-! ### Raw-data validation totals (validate_data.py) -/

/-- The raw article total of `load_all_original_data` /
`validate_processed_data` for one file (validate_data.py lines 33, 47,
77-78): keep rows whose `Codice` and `Descrizione` cells are present, take
`Valore` from `Primo_Periodo`, coerce numerically, and sum.  No hierarchy
resolution is involved. -/
def rawArticleTotal (rows : List Row) : ℚ :=
  ((rows.filter (fun r => r.codice ≠ "" ∧ r.descrizione ≠ "")).filterMap
    (fun r => parseNum r.valore)).sum

/-- The processed grand total for one file: sum of `Valore` over the
article rows of the processed output (`cleaned_consumi_2024.csv`,
summed in validate_data.py lines 85-86). -/
def processedTotal (dirPart : String) (rows : List Row) : ℚ :=
  totalValore (articoli (processFile dirPart rows))

/-- Processed grand total over a collection of files, each given as
(directory-derived name, ordered rows). -/
def processedTotalAll (files : List (String × List Row)) : ℚ :=
  (files.map (fun p => processedTotal p.1 p.2)).sum

/-- Raw article grand total over a collection of files. -/
def rawArticleTotalAll (files : List (String × List Row)) : ℚ :=
  (files.map (fun p => rawArticleTotal p.2)).sum

/-! ### Month handling (enhance_flat_data.py) -/

/-- Python `int(s)`: optional surrounding whitespace, optional sign,
nonempty digit string. -/
def parseIntPy (s : String) : Option Int :=
  let cs := pyStrip s.toList
  let p : Int × List Char :=
    match cs with
    | '+' :: t => (1, t)
    | '-' :: t => (-1, t)
    | _ => (1, cs)
  if p.2 ≠ [] ∧ p.2.all Char.isDigit then some (p.1 * (digitsVal p.2 : Int)) else none

/-- `calendar.month_name` as a list: index 0 is the empty string. -/
def month_name : List String :=
  ["", "January", "February", "March", "April", "May", "June",
   "July", "August", "September", "October", "November", "December"]

/-- Python sequence indexing `l[i]`: a negative index counts from the end;
an index out of range raises `IndexError`, modelled as `Except.error ()`. -/
def pyIndex (l : List String) (i : Int) : Except Unit String :=
  if 0 ≤ i ∧ i < (l.length : Int) then .ok (l.getD i.toNat "")
  else if -(l.length : Int) ≤ i ∧ i < 0 then .ok (l.getD (i + (l.length : Int)).toNat "")
  else .error ()

/-- `get_month_name` (enhance_flat_data.py lines 24-30): `int(month_str)`
then `calendar.month_name[month_num]`; only `ValueError`/`TypeError` from
the conversion are caught (returning `month_str` unchanged), an
`IndexError` from the lookup is NOT caught. -/
def get_month_name (month_str : String) : Except Unit String :=
  match parseIntPy month_str with
  | none => .ok month_str
  | some n => pyIndex month_name n

/-- `str.zfill(2)` on the month column (enhance_flat_data.py line 37). -/
def zfill2 (s : String) : String :=
  if s.length ≥ 2 then s else String.mk (List.replicate (2 - s.length) '0') ++ s

/-! ### Property-side helper: the most recent preceding Department row -/

/-- The value of the most recent row classified `Reparto` in a row
sequence, if any. -/
def lastDeptValue (rows : List Row) : Option String :=
  (rows.reverse.find? (fun r => rowType r = RowKind.reparto)).map (fun r => r.reparto)

/-! ## Basic facts about the classifier -/

@[simp] lemma fillRow_row (fb : String) (s : HState) (r : Row) : (fillRow fb s r).row = r := rfl

@[simp] lemma fillRow_reparto (fb : String) (s : HState) (r : Row) :
    (fillRow fb s r).Reparto_Filled = if s.reparto ≠ "" then s.reparto else fb := rfl

/-- A row the masks classify as `Articolo` is exactly a row carrying both a
code and a description (the article mask is applied last, so it wins
whenever it holds). -/
lemma rowType_articolo_iff (r : Row) :
    rowType r = RowKind.articolo ↔ (r.descrizione ≠ "" ∧ r.codice ≠ "") := by
  simp only [rowType]
  split_ifs with h4 h3 h2 h1 <;> simp_all

/-- A row classified `Reparto` has a non-empty department cell. -/
lemma rowType_reparto_nonempty (r : Row) (h : rowType r = RowKind.reparto) :
    r.reparto ≠ "" := by
  simp only [rowType] at h
  split_ifs at h with h4 h3 h2 h1
  all_goals simp_all

/-! ## Claim C2: rule precedence of the classifier -/

/-- A row with department present, class absent, and both code and
description present. -/
def exRowC2 : Row := ⟨"D", "", "", "C1", "Gin", ""⟩

/-- Claim C2 counterexample: on a row with department present, class
absent, and both code and description present, the source classifier
returns `Articolo`, not the `Department` that rule 1 of the claimed
first-match precedence would give. -/
theorem classifier_first_match_counterexample :
    rowType exRowC2 = RowKind.articolo ∧
      classifySpecFirstMatch exRowC2 = RowKind.reparto ∧
      RowKind.articolo ≠ RowKind.reparto := by
  refine ⟨rfl, rfl, by decide⟩

/-- Claim C2 (amended): the classifier evaluates the four mask rules in
program order with the LAST matching rule winning (precedence
Article > Category > Class > Department > Unknown); in particular a row
with department present, class absent, and both code and description
present is classified Article. -/
theorem classifier_last_match_amended (r : Row) :
    rowType r = classifyLastMatch r ∧
      (r.reparto ≠ "" → r.classe = "" → r.codice ≠ "" → r.descrizione ≠ "" →
        rowType r = RowKind.articolo) := by
  constructor
  · by_cases h4 : r.descrizione ≠ "" ∧ r.codice ≠ "" <;>
      by_cases h3 : r.categoria ≠ "" ∧ r.descrizione = "" ∧ r.codice = "" <;>
      by_cases h2 : r.classe ≠ "" ∧ r.categoria = "" <;>
      by_cases h1 : r.reparto ≠ "" ∧ r.classe = "" <;>
      simp [rowType, classifyLastMatch, maskRules, h1, h2, h3, h4]
  · intro _ _ h3 h4
    simp [rowType, h3, h4]

/-- Witness for the amended claim C2 at the concrete counterexample row. -/
theorem classifier_last_match_amended_witness :
    rowType exRowC2 = RowKind.articolo :=
  (classifier_last_match_amended exRowC2).2 (by decide) (by decide) (by decide) (by decide)

/-! ## Claim C5: numeric coercion -/

/-- Claim C5 counterexample: the numeric coercion used by the pipeline
(`pd.to_numeric(errors='coerce')`) does NOT parse the comma-decimal
variant: `"12,50"` coerces to missing, not to the number 12.50. -/
theorem comma_decimal_counterexample :
    parseNum "12,50" = none ∧ parseNum "12,50" ≠ some ((25 : ℚ) / 2) := by
  have h : parseNum "12,50" = none := rfl
  exact ⟨h, by rw [h]; simp⟩

/-- An article row whose `Valore` cell is the unparseable string `"abc"`. -/
def exBadFilled : Filled := ⟨⟨"", "", "", "A1", "Gin", "abc"⟩, "BAR", "", ""⟩

/-- Claim C5 (amended): numeric coercion accepts only period-decimal
numerals (with optional sign and exponent); comma decimals such as
`"12,50"`, thousands-separated forms such as `"1,000"`, and text such as
`"abc"` all become missing, never zero, and a record whose value is
missing contributes nothing to any sum.  No malformed-field diagnostic
counter exists in the code. -/
theorem numeric_coercion_amended (rows : List Filled) (f : Filled) (hf : valoreQ f = none) :
    parseNum "12,50" = none ∧ parseNum "1,000" = none ∧ parseNum "abc" = none ∧
      parseNum "12.50" = some ((25 : ℚ) / 2) ∧
      totalValore (f :: rows) = totalValore rows := by
  refine ⟨rfl, rfl, rfl, ?_, ?_⟩
  · have h : parseNum "12.50" = some (partsVal ⟨false, 12, 50, 2, 0⟩) := rfl
    rw [h]
    norm_num [partsVal]
  · simp [totalValore, List.filterMap_cons, hf]

/-- Witness for the amended claim C5: a record with `Valore = "abc"` is
excluded from the total. -/
theorem numeric_coercion_amended_witness :
    totalValore [exBadFilled] = totalValore [] :=
  (numeric_coercion_amended [] exBadFilled rfl).2.2.2.2

/-! ## Claim C7: month normalization -/

/-- Claim C7 counterexample: a month value of `"13"` (outside 1-12) is not
excluded as malformed - the `calendar.month_name[13]` lookup raises an
uncaught `IndexError`; and a non-numeric month `"abc"` is passed through
unchanged rather than excluded. -/
theorem month_lookup_counterexample :
    get_month_name "13" = Except.error () ∧ get_month_name "abc" = Except.ok "abc" :=
  ⟨rfl, rfl⟩

/-- Claim C7 (amended): the month is zero-padded to two digits; the name
lookup resolves an integer month 1-12 to its month name; a non-integer
month string is returned unchanged (the `ValueError` is caught), while an
integer month of 13 or more escapes as an uncaught `IndexError`; no row is
excluded. -/
theorem month_handling_amended (s : String) (n : Int) :
    (parseIntPy s = some n →
      ((1 ≤ n → n ≤ 12 → get_month_name s = Except.ok (month_name.getD n.toNat "")) ∧
        (13 ≤ n → get_month_name s = Except.error ()))) ∧
      (parseIntPy s = none → get_month_name s = Except.ok s) ∧
      (s.length ≤ 2 → (zfill2 s).length = 2) := by
  have hlen : (month_name.length : Int) = 13 := by norm_num [month_name]
  refine ⟨?_, ?_, ?_⟩
  · intro hp
    constructor
    · intro h1 h2
      have hc : 0 ≤ n ∧ n < (month_name.length : Int) := by omega
      simp [get_month_name, hp, pyIndex, hc]
    · intro h13
      have hA : ¬(0 ≤ n ∧ n < (month_name.length : Int)) := by omega
      have hB : ¬(-(month_name.length : Int) ≤ n ∧ n < 0) := by omega
      simp [get_month_name, hp, pyIndex, hA, hB]
  · intro hp
    simp [get_month_name, hp]
  · intro hl
    by_cases h2 : s.length ≥ 2
    · have he : s.length = 2 := le_antisymm hl h2
      simp [zfill2, h2, he]
    · simp only [zfill2]
      rw [if_neg h2, String.length_append, String.length_mk, List.length_replicate]
      omega

/-- Witness for the amended claim C7 at months `"04"` and `"13"`. -/
theorem month_handling_amended_witness :
    get_month_name "04" = Except.ok "April" ∧ get_month_name "13" = Except.error () := by
  constructor
  · exact ((month_handling_amended "04" 4).1 (by decide)).1 (by decide) (by decide)
  · exact ((month_handling_amended "13" 13).1 (by decide)).2 (by decide)

/-! ## Claim C10: the file fallback department -/

/-- Auxiliary: the head of a filtered list is the first element satisfying
the predicate. -/
lemma head?_filter_eq_find? (p : α → Bool) : ∀ l : List α, (l.filter p).head? = l.find? p := by
  intro l
  induction l with
  | nil => rfl
  | cons a t ih => by_cases h : p a <;> simp [List.filter_cons, h, ih]

/-- A file whose single row has a non-empty department field but is
classified `Classe` (class present, category absent). -/
def exRowsC10 : List Row := [⟨"X", "Y", "", "", "", ""⟩]

/-- Claim C10 counterexample: in a file where a row's department field is
non-empty but no row is classified as a Department row, the
directory-derived name is used as the fallback - contradicting the claim
that the directory name is used only when every department field is
empty. -/
theorem fallback_ignores_unclassified_department :
    repartoDirOf "MAGAZZINO" exRowsC10 = "MAGAZZINO" ∧
      exRowsC10.any (fun r => r.reparto ≠ "") = true :=
  ⟨rfl, rfl⟩

/-- Claim C10 (amended): the file-fallback department is the department
value of the FIRST row classified as a Department row, provided such a row
exists and some row's department field is non-blank after stripping;
when no row at all is classified as a Department row the directory-derived
name is used, even if some row's department field is non-empty. -/
theorem fallback_first_department_row_amended (dirPart : String) (rows : List Row) :
    (∀ r, rows.find? (fun x => rowType x = RowKind.reparto) = some r →
        rows.all (fun x => stripStr x.reparto = "") = false →
        repartoDirOf dirPart rows = r.reparto) ∧
      (rows.find? (fun x => rowType x = RowKind.reparto) = none →
        repartoDirOf dirPart rows = dirPart) := by
  constructor
  · intro r hfind hall
    have hhead : (rows.filter (fun x => rowType x = RowKind.reparto)).head? = some r := by
      rw [head?_filter_eq_find?]
      exact hfind
    obtain ⟨t, ht⟩ : ∃ t, rows.filter (fun x => rowType x = RowKind.reparto) = r :: t := by
      cases hh : rows.filter (fun x => rowType x = RowKind.reparto) with
      | nil => rw [hh] at hhead; simp at hhead
      | cons a t =>
        rw [hh] at hhead
        have ha : a = r := by simpa using hhead
        exact ⟨t, by rw [ha]⟩
    have hne : r.reparto ≠ "" := by
      refine rowType_reparto_nonempty r ?_
      have := List.find?_some hfind
      simpa using this
    simp [repartoDirOf, hall, ht, hne]
  · intro hnone
    have hf : rows.filter (fun x => rowType x = RowKind.reparto) = [] := by
      rw [List.filter_eq_nil_iff]
      intro a ha
      have := List.find?_eq_none.mp hnone a ha
      simpa using this
    simp [repartoDirOf, hf]

/-- A file with an explicit Department row followed by an article row. -/
def exRowsC10w : List Row := [⟨"BAR", "", "", "", "", ""⟩, ⟨"", "", "", "A1", "Gin", "10"⟩]

/-- Witness for the amended claim C10: with an explicit Department row
`"BAR"` present, the fallback is `"BAR"`, not the directory name. -/
theorem fallback_first_department_row_amended_witness :
    repartoDirOf "MAGAZZINO" exRowsC10w = "BAR" :=
  (fallback_first_department_row_amended "MAGAZZINO" exRowsC10w).1
    ⟨"BAR", "", "", "", "", ""⟩ rfl rfl

/-! ## Claim C9: leaf department non-emptiness -/

/-- An article row carrying no department information. -/
def exRowC9 : Row := ⟨"", "", "", "A1", "Gin", "10"⟩

/-- Claim C9 counterexample: for a source directory named
`"_Consumi_2024"` the derived fallback department is the empty string, and
an article row in a file with no Department row is stamped with an EMPTY
department - the ancestor path is not non-empty in the department
dimension. -/
theorem leaf_department_empty_counterexample :
    reparto_dir_of_dirname "_Consumi_2024" = "" ∧
      (processFile (reparto_dir_of_dirname "_Consumi_2024") [exRowC9]).map
          (fun f => f.Reparto_Filled) = [""] ∧
      rowType exRowC9 = RowKind.articolo ∧ parseNum exRowC9.valore = some 10 := by
  refine ⟨rfl, rfl, rfl, ?_⟩
  have h : parseNum exRowC9.valore = some (partsVal ⟨false, 10, 0, 0, 0⟩) := rfl
  rw [h]
  norm_num [partsVal]

/-- The fallback department computed by `repartoDirOf` is non-empty as
soon as the directory-derived name is. -/
lemma repartoDirOf_ne_empty (dirPart : String) (rows : List Row) (h : dirPart ≠ "") :
    repartoDirOf dirPart rows ≠ "" := by
  by_cases hall : rows.all (fun r => stripStr r.reparto = "") = true
  · simp [repartoDirOf, hall, h]
  · cases hm : (rows.filter (fun r => rowType r = RowKind.reparto)).map (fun r => r.reparto) with
    | nil => simp [repartoDirOf, hall, hm, h]
    | cons v t => by_cases hv : v = "" <;> simp [repartoDirOf, hall, hm, hv, h]

/-- Every stamped row of the propagation pass has a non-empty department
when the fallback is non-empty. -/
lemma mem_propagateAux_reparto_ne (fb : String) (hfb : fb ≠ "") :
    ∀ (rows : List Row) (s : HState) (f : Filled),
      f ∈ propagateAux fb s rows → f.Reparto_Filled ≠ "" := by
  intro rows
  induction rows with
  | nil => intro s f hf; simp [propagateAux] at hf
  | cons r rs ih =>
    intro s f hf
    simp only [propagateAux, List.mem_cons] at hf
    rcases hf with h | h
    · subst h
      simp only [fillRow_reparto]
      split_ifs with hc
      · exact hc
      · exact hfb
    · exact ih (step s r) f h

/-- Claim C9 (amended): provided the directory-derived fallback department
is non-empty, every row emitted by per-file processing (in particular
every leaf record) carries a non-empty resolved department, whether or not
any Department row precedes it. -/
theorem leaf_department_nonempty_amended (dirName : String) (rows : List Row) (f : Filled)
    (hf : f ∈ processFile (reparto_dir_of_dirname dirName) rows)
    (hd : reparto_dir_of_dirname dirName ≠ "") :
    f.Reparto_Filled ≠ "" := by
  have h1 : f ∈ propagate_hierarchy (repartoDirOf (reparto_dir_of_dirname dirName) rows) rows :=
    List.mem_of_mem_filter hf
  exact mem_propagateAux_reparto_ne _ (repartoDirOf_ne_empty _ rows hd) rows _ f h1

/-- Witness for the amended claim C9: a department-less article row from
directory `"BAR_Consumi_2024"` is stamped `"BAR"`, which is non-empty. -/
theorem leaf_department_nonempty_amended_witness :
    (⟨exRowC9, "BAR", "", ""⟩ : Filled).Reparto_Filled ≠ "" :=
  leaf_department_nonempty_amended "BAR_Consumi_2024" [exRowC9]
    ⟨exRowC9, "BAR", "", ""⟩
    (by
      rw [show processFile (reparto_dir_of_dirname "BAR_Consumi_2024") [exRowC9] =
            [⟨exRowC9, "BAR", "", ""⟩] from rfl]
      exact List.mem_singleton.mpr rfl)
    (by decide)

/-! ## Claim C1: hierarchy propagation as a left fold -/

lemma propagateAux_length (fb : String) (s : HState) (rows : List Row) :
    (propagateAux fb s rows).length = rows.length := by
  induction rows generalizing s with
  | nil => rfl
  | cons r rs ih => simp [propagateAux, ih]

/-- The i-th stamped row is the i-th input row filled from the state
obtained by folding the transitions over the first `i + 1` rows. -/
lemma propagateAux_get (fb : String) :
    ∀ (rows : List Row) (s : HState) (i : Nat) (h : i < rows.length),
      (propagateAux fb s rows).get ⟨i, by rw [propagateAux_length]; exact h⟩ =
        fillRow fb ((rows.take (i + 1)).foldl step s) rows[i] := by
  intro rows
  induction rows with
  | nil => intro s i h; exact absurd h (by simp)
  | cons r rs ih =>
    intro s i h
    cases i with
    | zero => rfl
    | succ j =>
      have h' : j < rs.length := by simpa using h
      exact ih (step s r) j h'

/-- After folding the transitions over a row sequence, the state's
department is the most recent `Reparto` row's value, or the initial
department when none occurred. -/
lemma foldl_step_reparto :
    ∀ (l : List Row) (s : HState), (l.foldl step s).reparto = (lastDeptValue l).getD s.reparto := by
  intro l
  induction l with
  | nil => intro s; rfl
  | cons r t ih =>
    intro s
    rw [List.foldl_cons, ih]
    unfold lastDeptValue
    rw [List.reverse_cons, List.find?_append]
    cases hf : t.reverse.find? (fun x => rowType x = RowKind.reparto) with
    | some v => simp [hf]
    | none =>
      cases hrt : rowType r <;> simp [hf, List.find?, hrt, step]

/-- Appending a non-Department row does not change the most recent
department value. -/
lemma lastDeptValue_concat_not (l : List Row) (x : Row) (hx : rowType x ≠ RowKind.reparto) :
    lastDeptValue (l ++ [x]) = lastDeptValue l := by
  unfold lastDeptValue
  rw [List.reverse_append]
  simp [List.find?, hx]

/-- A most-recent department value is always non-empty, because a row is
classified `Reparto` only when its department cell is non-empty. -/
lemma lastDeptValue_some_ne (l : List Row) (v : String) (h : lastDeptValue l = some v) :
    v ≠ "" := by
  unfold lastDeptValue at h
  cases hf : l.reverse.find? (fun r => rowType r = RowKind.reparto) with
  | none => rw [hf] at h; simp at h
  | some r =>
    rw [hf] at h
    simp at h
    have hp := List.find?_some hf
    have hr : rowType r = RowKind.reparto := by simpa using hp
    rw [← h]
    exact rowType_reparto_nonempty r hr

/-- Claim C1: hierarchy propagation is the strict left fold of the
transition function over the rows in input order from empty state, and
consequently every Article row's stamped department is the value of the
most recent preceding Department row in the same file, or the file
fallback if no Department row precedes it. -/
theorem leaf_department_resolution (fb : String) (rows : List Row) (i : Nat)
    (h : i < rows.length) (ha : rowType rows[i] = RowKind.articolo) :
    ((propagate_hierarchy fb rows).get
        ⟨i, by rw [propagate_hierarchy, propagateAux_length]; exact h⟩).Reparto_Filled =
      (lastDeptValue (rows.take i)).getD fb := by
  have hg2 : ((propagate_hierarchy fb rows).get
      ⟨i, by rw [propagate_hierarchy, propagateAux_length]; exact h⟩).Reparto_Filled =
      (fillRow fb ((rows.take (i + 1)).foldl step ⟨"", "", ""⟩) rows[i]).Reparto_Filled :=
    congrArg Filled.Reparto_Filled (propagateAux_get fb rows ⟨"", "", ""⟩ i h)
  rw [hg2, fillRow_reparto]
  have htake : rows.take (i + 1) = rows.take i ++ [rows[i]] := by
    rw [← List.take_concat_get rows i h, List.concat_eq_append]
  have hst : ((rows.take (i + 1)).foldl step ⟨"", "", ""⟩).reparto
      = (lastDeptValue (rows.take i)).getD "" := by
    rw [foldl_step_reparto, htake,
      lastDeptValue_concat_not (List.take i rows) rows[i] (by simp [ha])]
  rw [hst]
  cases hld : lastDeptValue (rows.take i) with
  | none => simp
  | some v =>
    have hv := lastDeptValue_some_ne _ v hld
    simp [hv]

/-- The concrete ordered scenario of the specification: a Department row,
a Class row, a Category row, then two Article rows. -/
def exScenarioRows : List Row :=
  [⟨"BAR", "", "", "", "", ""⟩,
   ⟨"", "Beverages", "", "", "", ""⟩,
   ⟨"", "", "Spirits", "", "", ""⟩,
   ⟨"", "", "Spirits", "A1", "Gin", "10.0"⟩,
   ⟨"", "", "Spirits", "A2", "Rum", "5.0"⟩]

/-- Witness for claim C1 at the fourth row (the Gin article) of the
concrete scenario. -/
theorem leaf_department_resolution_witness :
    3 < exScenarioRows.length ∧
      rowType exScenarioRows[3] = RowKind.articolo ∧
      ((propagate_hierarchy "FB" exScenarioRows).get ⟨3, by decide⟩).Reparto_Filled =
        (lastDeptValue (exScenarioRows.take 3)).getD "FB" :=
  ⟨by decide, by decide, leaf_department_resolution "FB" exScenarioRows 3 (by decide) (by decide)⟩

/-! ## Claim C3: the processed grand total equals the raw article total -/

/-- A `NaN`-skipping sum equals the sum that counts missing entries as
zero. -/
lemma filterMap_sum_getD {α : Type} (g : α → Option ℚ) :
    ∀ l : List α, (l.filterMap g).sum = (l.map (fun a => (g a).getD 0)).sum := by
  intro l
  induction l with
  | nil => rfl
  | cons f t ih => cases hg : g f <;> simp [List.filterMap_cons, hg, ih]

/-- The processed per-file total, in canonical per-row form: each input
row contributes its parsed value when it is an article row and zero
otherwise. -/
lemma processed_total_propagateAux (fb : String) :
    ∀ (rows : List Row) (s : HState),
      ((articoli ((propagateAux fb s rows).filter (fun f => f.row.valore ≠ ""))).map
          (fun f => (valoreQ f).getD 0)).sum =
        (rows.map (fun r =>
          if rowType r = RowKind.articolo then (parseNum r.valore).getD 0 else 0)).sum := by
  intro rows
  induction rows with
  | nil => intro s; rfl
  | cons r rs ih =>
    intro s
    simp only [propagateAux, List.filter_cons, fillRow_row]
    by_cases hv : r.valore = ""
    · rw [if_neg (by simp [hv])]
      rw [List.map_cons, List.sum_cons]
      have h0 : parseNum r.valore = none := by rw [hv]; rfl
      rw [h0]
      simp only [Option.getD_none, ite_self, zero_add]
      simpa using ih (step s r)
    · by_cases ha : rowType r = RowKind.articolo
      · simp [hv, ha, articoli, List.filter_cons, valoreQ]
        simpa [articoli, valoreQ] using ih (step s r)
      · simp [hv, ha, articoli, List.filter_cons]
        simpa [articoli, valoreQ] using ih (step s r)

/-- The raw article total of the validator, in the same canonical per-row
form: a row carries both code and description exactly when it is
classified Article. -/
lemma raw_total_map (rows : List Row) :
    ((rows.filter (fun r => r.codice ≠ "" ∧ r.descrizione ≠ "")).map
        (fun r => (parseNum r.valore).getD 0)).sum =
      (rows.map (fun r =>
        if rowType r = RowKind.articolo then (parseNum r.valore).getD 0 else 0)).sum := by
  induction rows with
  | nil => rfl
  | cons r rs ih =>
    by_cases hc : r.codice ≠ "" ∧ r.descrizione ≠ ""
    · have ha : rowType r = RowKind.articolo := (rowType_articolo_iff r).mpr ⟨hc.2, hc.1⟩
      simp [List.filter_cons, hc, ha]
      simpa using ih
    · have ha : rowType r ≠ RowKind.articolo := fun hEq =>
        hc ⟨((rowType_articolo_iff r).mp hEq).2, ((rowType_articolo_iff r).mp hEq).1⟩
      simp [List.filter_cons, hc, ha]
      simpa using ih

/-- Claim C3: the grand total of the classify-normalize-propagate pipeline
equals the grand total computed directly from raw Article-kind rows (rows
carrying both code and description) with no hierarchy resolution, file by
file and over any collection of files; in particular the two agree within
the absolute tolerance 0.01. -/
theorem reconstruction_total_matches_raw (files : List (String × List Row)) :
    processedTotalAll files = rawArticleTotalAll files ∧
      |processedTotalAll files - rawArticleTotalAll files| ≤ 1 / 100 := by
  have hfile : ∀ (d : String) (rows : List Row), processedTotal d rows = rawArticleTotal rows := by
    intro d rows
    rw [processedTotal, totalValore, filterMap_sum_getD, rawArticleTotal, filterMap_sum_getD,
      processFile, propagate_hierarchy, processed_total_propagateAux, raw_total_map]
  have hall : processedTotalAll files = rawArticleTotalAll files := by
    rw [processedTotalAll, rawArticleTotalAll]
    congr 1
    exact List.map_congr_left (fun p _ => hfile p.1 p.2)
  refine ⟨hall, ?_⟩
  rw [hall, sub_self, abs_zero]
  norm_num

/-! ## Claim C4: aggregates are computed from article leaves only -/

/-- Claim C4: every aggregate view - by department, by department and
class, by department, class and category, and the grand total - is a sum
over article-kind leaf records only: appending any rows that are not of
kind Article (Department, Class or Category headers, or Unknown rows)
leaves every aggregate unchanged, and the grand total is the plain sum of
each leaf's value counted exactly once. -/
theorem aggregates_from_leaves_only (rows extra : List Filled)
    (hx : ∀ f ∈ extra, rowType f.row ≠ RowKind.articolo) :
    articoli (rows ++ extra) = articoli rows ∧
      reparto_summary (rows ++ extra) = reparto_summary rows ∧
      classe_summary (rows ++ extra) = classe_summary rows ∧
      categoria_summary (rows ++ extra) = categoria_summary rows ∧
      totalValore (articoli (rows ++ extra)) = ((articoli rows).filterMap valoreQ).sum := by
  have hnil : extra.filter (fun f => rowType f.row = RowKind.articolo) = [] :=
    List.filter_eq_nil_iff.mpr (fun f hf => by simpa using hx f hf)
  have ha : articoli (rows ++ extra) = articoli rows := by
    rw [articoli, articoli, List.filter_append, hnil, List.append_nil]
  refine ⟨ha, ?_, ?_, ?_, ?_⟩
  · simp only [reparto_summary, ha]
  · simp only [classe_summary, ha]
  · simp only [categoria_summary, ha]
  · rw [ha]; rfl

/-- A stamped department header row that also carries a monetary value. -/
def exHeaderFilled : Filled := ⟨⟨"BAR", "", "", "", "", "99"⟩, "BAR", "", ""⟩

/-- A stamped article leaf row. -/
def exLeafA : Filled := ⟨⟨"", "", "", "A1", "Gin", "10.0"⟩, "BAR", "Beverages", "Spirits"⟩

/-- Witness for claim C4: appending a value-carrying Department header row
does not change the department summary. -/
theorem aggregates_from_leaves_only_witness :
    reparto_summary ([exLeafA] ++ [exHeaderFilled]) = reparto_summary [exLeafA] :=
  (aggregates_from_leaves_only [exLeafA] [exHeaderFilled]
    (by
      intro f hf
      rw [List.mem_singleton] at hf
      subst hf
      decide)).2.1

/-! ## Order facts for the group-key comparators -/

/-- Two characters with the same code point are equal. -/
lemma char_eq_of_toNat_eq (x y : Char) (h : x.toNat = y.toNat) : x = y :=
  Char.eq_of_val_eq (UInt32.ext h)

/-- Two strings with the same character list are equal. -/
lemma string_eq_of_toList_eq (s t : String) (h : s.toList = t.toList) : s = t := by
  cases s
  cases t
  exact congrArg String.mk h

lemma charListLe_total : ∀ xs ys : List Char, charListLe xs ys = false → charListLe ys xs = true := by
  intro xs
  induction xs with
  | nil => intro ys h; simp [charListLe] at h
  | cons x xs ih =>
    intro ys h
    cases ys with
    | nil => rfl
    | cons y ys =>
      simp only [charListLe] at h ⊢
      by_cases h1 : x.toNat < y.toNat
      · rw [if_pos h1] at h
        exact absurd h (by simp)
      · rw [if_neg h1] at h
        by_cases h2 : y.toNat < x.toNat
        · rw [if_pos h2]
        · rw [if_neg h2] at h
          rw [if_neg h2, if_neg h1]
          exact ih ys h

lemma charListLe_trans :
    ∀ xs ys zs : List Char,
      charListLe xs ys = true → charListLe ys zs = true → charListLe xs zs = true := by
  intro xs
  induction xs with
  | nil => intro ys zs h1 h2; rfl
  | cons x xs ih =>
    intro ys zs h1 h2
    cases ys with
    | nil => simp [charListLe] at h1
    | cons y ys =>
      cases zs with
      | nil => simp [charListLe] at h2
      | cons z zs =>
        simp only [charListLe] at h1 h2 ⊢
        rcases Nat.lt_trichotomy x.toNat y.toNat with hxy | hxy | hxy
        · rcases Nat.lt_trichotomy y.toNat z.toNat with hyz | hyz | hyz
          · rw [if_pos (by omega)]
          · rw [if_pos (by omega)]
          · rw [if_neg (by omega), if_pos hyz] at h2
            exact absurd h2 (by simp)
        · rcases Nat.lt_trichotomy y.toNat z.toNat with hyz | hyz | hyz
          · rw [if_pos (by omega)]
          · rw [if_neg (by omega), if_neg (by omega)] at h1 h2 ⊢
            exact ih ys zs h1 h2
          · rw [if_neg (by omega), if_pos hyz] at h2
            exact absurd h2 (by simp)
        · rw [if_neg (by omega), if_pos hxy] at h1
          exact absurd h1 (by simp)

lemma charListLe_antisymm :
    ∀ xs ys : List Char, charListLe xs ys = true → charListLe ys xs = true → xs = ys := by
  intro xs
  induction xs with
  | nil =>
    intro ys h1 h2
    cases ys with
    | nil => rfl
    | cons y ys => simp [charListLe] at h2
  | cons x xs ih =>
    intro ys h1 h2
    cases ys with
    | nil => simp [charListLe] at h1
    | cons y ys =>
      simp only [charListLe] at h1 h2
      rcases Nat.lt_trichotomy x.toNat y.toNat with hxy | hxy | hxy
      · rw [if_neg (by omega), if_pos (by omega)] at h2
        exact absurd h2 (by simp)
      · rw [if_neg (by omega), if_neg (by omega)] at h1 h2
        rw [char_eq_of_toNat_eq x y hxy, ih ys h1 h2]
      · rw [if_neg (by omega), if_pos (by omega)] at h1
        exact absurd h1 (by simp)

lemma keyLe1_total (a b : String) (h : keyLe1 a b = false) : keyLe1 b a = true :=
  charListLe_total _ _ h

lemma keyLe1_trans (a b c : String) (h1 : keyLe1 a b = true) (h2 : keyLe1 b c = true) :
    keyLe1 a c = true :=
  charListLe_trans _ _ _ h1 h2

lemma keyLe1_antisymm (a b : String) (h1 : keyLe1 a b = true) (h2 : keyLe1 b a = true) :
    a = b :=
  string_eq_of_toList_eq a b (charListLe_antisymm _ _ h1 h2)

lemma lexLe_total {β : Type} (le2 : β → β → Bool)
    (h2 : ∀ a b, le2 a b = false → le2 b a = true) :
    ∀ a b : String × β, lexLe le2 a b = false → lexLe le2 b a = true := by
  intro a b h
  by_cases he : a.1 = b.1
  · rw [lexLe, if_pos he] at h
    rw [lexLe, if_pos he.symm]
    exact h2 _ _ h
  · rw [lexLe, if_neg he] at h
    rw [lexLe, if_neg (fun hc => he hc.symm)]
    exact keyLe1_total _ _ h

lemma lexLe_trans {β : Type} (le2 : β → β → Bool)
    (h2 : ∀ a b c, le2 a b = true → le2 b c = true → le2 a c = true) :
    ∀ a b c : String × β,
      lexLe le2 a b = true → lexLe le2 b c = true → lexLe le2 a c = true := by
  intro a b c hab hbc
  by_cases he1 : a.1 = b.1
  · by_cases he2 : b.1 = c.1
    · rw [lexLe, if_pos he1] at hab
      rw [lexLe, if_pos he2] at hbc
      rw [lexLe, if_pos (he1.trans he2)]
      exact h2 _ _ _ hab hbc
    · rw [lexLe, if_neg he2] at hbc
      have hne : a.1 ≠ c.1 := fun hc => he2 (he1.symm.trans hc)
      rw [lexLe, if_neg hne, he1]
      exact hbc
  · by_cases he2 : b.1 = c.1
    · rw [lexLe, if_neg he1] at hab
      have hne : a.1 ≠ c.1 := fun hc => he1 (hc.trans he2.symm)
      rw [lexLe, if_neg hne, ← he2]
      exact hab
    · rw [lexLe, if_neg he1] at hab
      rw [lexLe, if_neg he2] at hbc
      by_cases hac : a.1 = c.1
      · exfalso
        apply he1
        apply keyLe1_antisymm _ _ hab
        rw [← hac] at hbc
        exact hbc
      · rw [lexLe, if_neg hac]
        exact keyLe1_trans _ _ _ hab hbc

lemma keyLe2_total (a b : String × String) (h : keyLe2 a b = false) : keyLe2 b a = true :=
  lexLe_total keyLe1 keyLe1_total a b h

lemma keyLe2_trans (a b c : String × String) (h1 : keyLe2 a b = true)
    (h2 : keyLe2 b c = true) : keyLe2 a c = true :=
  lexLe_trans keyLe1 keyLe1_trans a b c h1 h2

lemma keyLe3_total (a b : String × String × String) (h : keyLe3 a b = false) :
    keyLe3 b a = true :=
  lexLe_total keyLe2 keyLe2_total a b h

lemma keyLe3_trans (a b c : String × String × String) (h1 : keyLe3 a b = true)
    (h2 : keyLe3 b c = true) : keyLe3 a c = true :=
  lexLe_trans keyLe2 keyLe2_trans a b c h1 h2

/-! ## Insertion sort: permutation and sortedness -/

lemma insSorted_perm {α : Type} (le : α → α → Bool) (a : α) :
    ∀ l : List α, (insSorted le a l).Perm (a :: l) := by
  intro l
  induction l with
  | nil => exact List.Perm.refl _
  | cons b t ih =>
    simp only [insSorted]
    by_cases h : le a b = true
    · rw [if_pos h]
    · rw [if_neg h]
      exact (List.Perm.cons b ih).trans (List.Perm.swap a b t)

lemma sortKeys_perm {α : Type} (le : α → α → Bool) :
    ∀ l : List α, (sortKeys le l).Perm l := by
  intro l
  induction l with
  | nil => exact List.Perm.refl _
  | cons a t ih =>
    simp only [sortKeys, List.foldr_cons]
    exact (insSorted_perm le a _).trans (List.Perm.cons a ih)

lemma insSorted_pairwise {α : Type} (le : α → α → Bool)
    (htot : ∀ a b, le a b = false → le b a = true)
    (htrans : ∀ a b c, le a b = true → le b c = true → le a c = true) (a : α) :
    ∀ l : List α, List.Pairwise (fun x y => le x y = true) l →
      List.Pairwise (fun x y => le x y = true) (insSorted le a l) := by
  intro l
  induction l with
  | nil => intro _; exact List.pairwise_singleton _ _
  | cons b t ih =>
    intro hp
    rw [List.pairwise_cons] at hp
    obtain ⟨hb, ht⟩ := hp
    simp only [insSorted]
    by_cases h : le a b = true
    · rw [if_pos h]
      refine List.Pairwise.cons ?_ (List.Pairwise.cons hb ht)
      intro x hx
      rcases List.mem_cons.mp hx with rfl | hx2
      · exact h
      · exact htrans a b x h (hb x hx2)
    · rw [if_neg h]
      refine List.Pairwise.cons ?_ (ih ht)
      intro x hx
      have hx2 : x ∈ a :: t := (insSorted_perm le a t).mem_iff.mp hx
      rcases List.mem_cons.mp hx2 with hxa | hx3
      · rw [hxa]
        exact htot a b (by simpa using h)
      · exact hb x hx3

lemma sortKeys_pairwise {α : Type} (le : α → α → Bool)
    (htot : ∀ a b, le a b = false → le b a = true)
    (htrans : ∀ a b c, le a b = true → le b c = true → le a c = true) :
    ∀ l : List α, List.Pairwise (fun x y => le x y = true) (sortKeys le l) := by
  intro l
  induction l with
  | nil => exact List.Pairwise.nil
  | cons a t ih =>
    simp only [sortKeys, List.foldr_cons]
    exact insSorted_pairwise le htot htrans a _ ih

lemma sortKeys_nodup {α : Type} [DecidableEq α] (le : α → α → Bool) (l : List α)
    (h : l.Nodup) : (sortKeys le l).Nodup :=
  ((sortKeys_perm le l).nodup_iff).mpr h


/-! ## Fiber sums: grouped summaries partition the rows -/

lemma sum_map_ite_mem {κ : Type} [DecidableEq κ] :
    ∀ L : List κ, L.Nodup → ∀ a : κ, a ∈ L → ∀ (q : ℚ) (g : κ → ℚ),
      (L.map (fun b => if a = b then q + g b else g b)).sum = q + (L.map g).sum := by
  intro L
  induction L with
  | nil => intro _ a ha; cases ha
  | cons b t ih =>
    intro hnd a ha q g
    rw [List.nodup_cons] at hnd
    rcases List.mem_cons.mp ha with hab | hat
    · cases hab
      simp only [List.map_cons, List.sum_cons, if_pos rfl]
      have ht : t.map (fun c => if b = c then q + g c else g c) = t.map g := by
        apply List.map_congr_left
        intro c hc
        refine if_neg ?_
        intro he
        rw [← he] at hc
        exact hnd.1 hc
      rw [ht, if_pos trivial]
      ring
    · have hab : a ≠ b := by
        intro he
        rw [he] at hat
        exact hnd.1 hat
      simp only [List.map_cons, List.sum_cons, if_neg hab]
      rw [ih hnd.2 a hat q g]
      ring

lemma sum_map_ite_not_mem {κ : Type} [DecidableEq κ] (L : List κ) (a : κ)
    (ha : ∀ b ∈ L, a ≠ b) (q : ℚ) (g : κ → ℚ) :
    (L.map (fun b => if a = b then q + g b else g b)).sum = (L.map g).sum :=
  congrArg List.sum (List.map_congr_left fun b hb => if_neg (ha b hb))

/-- Summing the fibers of a grouping over the selected keys accounts for
each selected row exactly once. -/
lemma sum_fibers_filter {α κ : Type} [DecidableEq κ] (k : α → κ) (v : α → ℚ) (p : κ → Bool) :
    ∀ l : List α,
      (((l.map k).dedup.filter p).map
          (fun a => ((l.filter (fun x => k x = a)).map v).sum)).sum =
        ((l.filter (fun x => p (k x))).map v).sum := by
  intro l
  induction l with
  | nil => rfl
  | cons x t ih =>
    have hfib : ∀ a : κ, (((x :: t).filter (fun y => k y = a)).map v).sum =
        if k x = a then v x + ((t.filter (fun y => k y = a)).map v).sum
        else ((t.filter (fun y => k y = a)).map v).sum := by
      intro a
      by_cases h : k x = a
      · simp [List.filter_cons, h]
      · simp [List.filter_cons, h]
    rw [List.map_cons]
    by_cases hmem : k x ∈ t.map k
    · rw [List.dedup_cons_of_mem hmem]
      rw [List.map_congr_left (fun a _ => hfib a)]
      by_cases hp : p (k x) = true
      · have hnd : ((t.map k).dedup.filter p).Nodup := (List.nodup_dedup _).filter p
        have hin : k x ∈ (t.map k).dedup.filter p :=
          List.mem_filter.mpr ⟨List.mem_dedup.mpr hmem, hp⟩
        rw [sum_map_ite_mem _ hnd _ hin (v x) _, ih]
        simp [List.filter_cons, hp]
      · have hne : ∀ b ∈ (t.map k).dedup.filter p, k x ≠ b := by
          intro b hb he
          have hmb := (List.mem_filter.mp hb).2
          rw [← he] at hmb
          exact hp hmb
        rw [sum_map_ite_not_mem _ _ hne (v x) _, ih]
        simp [List.filter_cons, hp]
    · rw [List.dedup_cons_of_not_mem hmem]
      have hFkx : t.filter (fun y => k y = k x) = [] := by
        rw [List.filter_eq_nil_iff]
        intro y hy hky
        have hky2 : k y = k x := by simpa using hky
        apply hmem
        rw [← hky2]
        exact List.mem_map_of_mem k hy
      have hne : ∀ b ∈ (t.map k).dedup, k x ≠ b := by
        intro b hb he
        apply hmem
        rw [he]
        exact List.mem_dedup.mp hb
      by_cases hp : p (k x) = true
      · rw [List.filter_cons, if_pos hp, List.map_cons, List.sum_cons]
        rw [List.map_congr_left (fun a _ => hfib a)]
        have hhead : (((x :: t).filter (fun y => k y = k x)).map v).sum = v x := by
          rw [hfib (k x), if_pos rfl, hFkx]
          simp
        rw [hhead]
        have hne2 : ∀ b ∈ (t.map k).dedup.filter p, k x ≠ b := fun b hb =>
          hne b (List.mem_of_mem_filter hb)
        rw [sum_map_ite_not_mem _ _ hne2 (v x) _, ih]
        simp [List.filter_cons, hp]
      · rw [List.filter_cons, if_neg hp]
        rw [List.map_congr_left (fun a _ => hfib a)]
        have hne2 : ∀ b ∈ (t.map k).dedup.filter p, k x ≠ b := fun b hb =>
          hne b (List.mem_of_mem_filter hb)
        rw [sum_map_ite_not_mem _ _ hne2 (v x) _, ih]
        simp [List.filter_cons, hp]

/-- The fiber-sum identity is unaffected by sorting the key list. -/
lemma sortKeys_fiber_sum {α κ : Type} [DecidableEq κ] (le : κ → κ → Bool)
    (l : List α) (k : α → κ) (p : κ → Bool) (v : α → ℚ) :
    (((sortKeys le ((l.map k).dedup)).filter p).map
        (fun a => ((l.filter (fun x => k x = a)).map v).sum)).sum =
      ((l.filter (fun x => p (k x))).map v).sum := by
  have hperm := (sortKeys_perm le ((l.map k).dedup)).filter p
  rw [(hperm.map (fun a => ((l.filter (fun x => k x = a)).map v).sum)).sum_eq]
  exact sum_fibers_filter k v p l

lemma totalValore_eq_map (l : List Filled) :
    totalValore l = (l.map (fun f => (valoreQ f).getD 0)).sum :=
  filterMap_sum_getD valoreQ l

/-! ## Claim C6: hierarchical consistency of the aggregate views -/

/-- Claim C6: the aggregate views are hierarchically consistent: the sum of
the department-level aggregate rows equals the grand total; for every
department-level aggregate row, the class-level rows belonging to that
department sum to its value; and for every class-level aggregate row, the
category-level rows belonging to that (department, class) sum to its
value. -/
theorem hierarchical_consistency (rows : List Filled) :
    ((reparto_summary rows).map Prod.snd).sum = totalValore (articoli rows) ∧
      (∀ e ∈ reparto_summary rows,
        (((classe_summary rows).filter (fun t => t.1.1 = e.1)).map Prod.snd).sum = e.2) ∧
      (∀ e ∈ classe_summary rows,
        (((categoria_summary rows).filter
            (fun t => t.1.1 = e.1.1 ∧ t.1.2.1 = e.1.2)).map Prod.snd).sum = e.2) := by
  refine ⟨?_, ?_, ?_⟩
  · simp only [reparto_summary, totalValore_eq_map, List.map_map]
    have h := sortKeys_fiber_sum keyLe1 (articoli rows) (fun f => f.Reparto_Filled)
        (fun _ => true) (fun f => (valoreQ f).getD 0)
    simp only [List.filter_true] at h
    simpa [Function.comp] using h
  · intro e he
    simp only [reparto_summary, List.mem_map] at he
    obtain ⟨kk, hkmem, hke⟩ := he
    subst hke
    simp only [classe_summary, totalValore_eq_map, List.filter_map, List.map_map]
    have h := sortKeys_fiber_sum keyLe2 (articoli rows)
        (fun f => (f.Reparto_Filled, f.Classe_Filled))
        (fun k2 => k2.1 = kk)
        (fun f => (valoreQ f).getD 0)
    simpa [Function.comp] using h
  · intro e he
    simp only [classe_summary, List.mem_map] at he
    obtain ⟨kk, hkmem, hke⟩ := he
    subst hke
    simp only [categoria_summary, totalValore_eq_map, List.filter_map, List.map_map]
    have h := sortKeys_fiber_sum keyLe3 (articoli rows)
        (fun f => (f.Reparto_Filled, f.Classe_Filled, f.Categoria_Filled))
        (fun k3 => k3.1 = kk.1 ∧ k3.2.1 = kk.2)
        (fun f => (valoreQ f).getD 0)
    have hcongr : (articoli rows).filter
        (fun f => (f.Reparto_Filled = kk.1 ∧ f.Classe_Filled = kk.2)) =
        (articoli rows).filter (fun f => (f.Reparto_Filled, f.Classe_Filled) = kk) := by
      apply List.filter_congr
      intro f _
      simp [Prod.ext_iff]
    rw [← hcongr]
    simpa [Function.comp] using h

/-- Another stamped article leaf row in the same department. -/
def exLeafB : Filled := ⟨⟨"", "", "", "A2", "Rum", "5.0"⟩, "BAR", "Beverages", "Spirits"⟩

/-- Witness for claim C6 on the concrete two-leaf collection: the class
rows of department `"BAR"` sum to that department's aggregate value 15. -/
theorem hierarchical_consistency_witness :
    (("BAR", partsVal ⟨false, 10, 0, 1, 0⟩ + (partsVal ⟨false, 5, 0, 1, 0⟩ + 0)) ∈
        reparto_summary [exLeafA, exLeafB]) ∧
      (((classe_summary [exLeafA, exLeafB]).filter
          (fun t => t.1.1 = "BAR")).map Prod.snd).sum = (15 : ℚ) := by
  have hmem : ("BAR", partsVal ⟨false, 10, 0, 1, 0⟩ + (partsVal ⟨false, 5, 0, 1, 0⟩ + 0)) ∈
      reparto_summary [exLeafA, exLeafB] := by
    rw [show reparto_summary [exLeafA, exLeafB] =
        [("BAR", partsVal ⟨false, 10, 0, 1, 0⟩ + (partsVal ⟨false, 5, 0, 1, 0⟩ + 0))] from rfl]
    exact List.mem_singleton.mpr rfl
  refine ⟨hmem, ?_⟩
  have h := (hierarchical_consistency [exLeafA, exLeafB]).2.1 _ hmem
  norm_num [partsVal] at h
  simpa using h

/-! ## Claim C8: ordering of the summary rows -/

/-- A stamped article leaf in department `"A"` with value 1. -/
def exDescA : Filled := ⟨⟨"", "", "", "A1", "x", "1"⟩, "A", "", ""⟩

/-- A stamped article leaf in department `"B"` with value 2. -/
def exDescB : Filled := ⟨⟨"", "", "", "A2", "y", "2"⟩, "B", "", ""⟩

/-- Claim C8 counterexample: the department summary of a collection whose
department `"A"` totals 1 and department `"B"` totals 2 lists `"A"` first -
`groupby` output is ordered by ascending key, NOT by descending summed
value. -/
theorem summary_order_counterexample :
    reparto_summary [exDescA, exDescB] = [("A", 1), ("B", 2)] ∧
      ¬ List.Pairwise (fun a b : String × ℚ => b.2 ≤ a.2)
        (reparto_summary [exDescA, exDescB]) := by
  have h : reparto_summary [exDescA, exDescB] =
      [("A", partsVal ⟨false, 1, 0, 0, 0⟩ + 0), ("B", partsVal ⟨false, 2, 0, 0, 0⟩ + 0)] := rfl
  have h1 : partsVal ⟨false, 1, 0, 0, 0⟩ + 0 = 1 := by norm_num [partsVal]
  have h2 : partsVal ⟨false, 2, 0, 0, 0⟩ + 0 = 2 := by norm_num [partsVal]
  rw [h, h1, h2]
  refine ⟨rfl, ?_⟩
  intro hp
  rw [List.pairwise_cons] at hp
  have h3 := hp.1 ("B", 2) (by simp)
  norm_num at h3

/-- Claim C8 (amended): every merge-step aggregate view is ordered by
strictly ascending lexicographic group key (value plays no role in the
order); together with the summary being a pure function of the input, this
makes the row order deterministic across repeated runs. -/
theorem summary_order_amended (rows : List Filled) :
    List.Pairwise (fun a b : String × ℚ => keyLe1 a.1 b.1 = true ∧ a.1 ≠ b.1)
      (reparto_summary rows) ∧
      List.Pairwise (fun a b : (String × String) × ℚ => keyLe2 a.1 b.1 = true ∧ a.1 ≠ b.1)
        (classe_summary rows) ∧
      List.Pairwise
        (fun a b : (String × String × String) × ℚ => keyLe3 a.1 b.1 = true ∧ a.1 ≠ b.1)
        (categoria_summary rows) := by
  refine ⟨?_, ?_, ?_⟩
  · simp only [reparto_summary]
    rw [List.pairwise_map]
    have hs := sortKeys_pairwise keyLe1 keyLe1_total keyLe1_trans
        ((articoli rows).map (fun f => f.Reparto_Filled)).dedup
    have hn : List.Pairwise (fun a b : String => a ≠ b)
        (sortKeys keyLe1 ((articoli rows).map (fun f => f.Reparto_Filled)).dedup) :=
      sortKeys_nodup keyLe1 _ (List.nodup_dedup _)
    exact (hs.and hn).imp (fun h => h)
  · simp only [classe_summary]
    rw [List.pairwise_map]
    have hs := sortKeys_pairwise keyLe2 keyLe2_total keyLe2_trans
        ((articoli rows).map (fun f => (f.Reparto_Filled, f.Classe_Filled))).dedup
    have hn : List.Pairwise (fun a b : String × String => a ≠ b)
        (sortKeys keyLe2
          ((articoli rows).map (fun f => (f.Reparto_Filled, f.Classe_Filled))).dedup) :=
      sortKeys_nodup keyLe2 _ (List.nodup_dedup _)
    exact (hs.and hn).imp (fun h => h)
  · simp only [categoria_summary]
    rw [List.pairwise_map]
    have hs := sortKeys_pairwise keyLe3 keyLe3_total keyLe3_trans
        ((articoli rows).map
          (fun f => (f.Reparto_Filled, f.Classe_Filled, f.Categoria_Filled))).dedup
    have hn : List.Pairwise (fun a b : String × String × String => a ≠ b)
        (sortKeys keyLe3
          ((articoli rows).map
            (fun f => (f.Reparto_Filled, f.Classe_Filled, f.Categoria_Filled))).dedup) :=
      sortKeys_nodup keyLe3 _ (List.nodup_dedup _)
    exact (hs.and hn).imp (fun h => h)

end Economato
